import Mathlib

/-!
Shallow embedding of the data pipeline of `src/main.py` (Alberta
deforestation dashboard): the grid smoothing engine (`apply_smoothing`),
the spatial filter (`filter_points_in_polygon`), the temporal aggregation
inside `plot_loss_trend`, and the risk-level filtering of the Classifier
tab.  Real-valued data is embedded as exact rationals; numpy / scipy /
shapely library calls are embedded by their documented semantics on the
arguments the program passes them.
-/

/-! ## numpy primitives used by `apply_smoothing` -/

/-- `np.linspace(lo, hi, n)`: `n` evenly spaced edges from `lo` to `hi`
inclusive, edge `i` being `lo + i * (hi - lo) / (n - 1)`.  For `n = 1`
numpy returns `[lo]`; the rational model agrees because `x / 0 = 0`. -/
def linspace (lo hi : ℚ) (n : ℕ) : List ℚ :=
  (List.range n).map (fun (i : ℕ) => lo + (i : ℚ) * ((hi - lo) / ((n : ℚ) - 1)))

/-- `np.searchsorted(edges, x, side='right')` on a sorted edge array:
the number of edges `≤ x`. -/
def searchsortedRight (edges : List ℚ) (x : ℚ) : ℕ :=
  edges.countP (fun e => decide (e ≤ x))

/-- Bin assignment of `np.histogramdd` (used by `np.histogram2d`) for one
axis with explicit bin edges: `s := searchsorted(edges, x, 'right')`, a
value equal to the rightmost edge is shifted one bin left, and `x` is
counted iff the resulting (1-based, outliers stripped) index lies in
`[1, len(edges) - 1]`; the 0-based bin index is that index minus 1. -/
def binIndex (edges : List ℚ) (x : ℚ) : Option ℕ :=
  let s0 := searchsortedRight edges x
  let s := if edges.getLast? = some x then s0 - 1 else s0
  if 1 ≤ s ∧ s ≤ edges.length - 1 then some (s - 1) else none

/-! ## Input rows and numeric coercion -/

/-- A raw row of the classifier prediction table: each of `lat`, `lon`,
`prob` is `some q` when the cell is numeric, `none` when it is missing or
fails `pd.to_numeric(errors="coerce")` (NaN). -/
structure RawSample where
  lat : Option ℚ
  lon : Option ℚ
  prob : Option ℚ
deriving DecidableEq

/-- A coerced sample: all three fields numeric. -/
structure Sample where
  lat : ℚ
  lon : ℚ
  prob : ℚ
deriving DecidableEq

/-- Lines 195-199 of `apply_smoothing`: `dropna` / `to_numeric(coerce)` /
`dropna` keep exactly the rows whose three fields are all numeric. -/
def coerceSamples (rows : List RawSample) : List Sample :=
  rows.filterMap (fun r =>
    match r.lat, r.lon, r.prob with
    | some a, some o, some p => some ⟨a, o, p⟩
    | _, _, _ => none)

/-- `ndarray.min()` of a list, meaningful only on nonempty input
(`apply_smoothing` reaches it only after the emptiness check is modelled). -/
def listMin (l : List ℚ) : ℚ := l.foldl min (l.headD 0)

/-- `ndarray.max()` of a list, meaningful only on nonempty input. -/
def listMax (l : List ℚ) : ℚ := l.foldl max (l.headD 0)

def sampleLats (raw : List RawSample) : List ℚ := (coerceSamples raw).map Sample.lat

def sampleLons (raw : List RawSample) : List ℚ := (coerceSamples raw).map Sample.lon

def latMinOf (raw : List RawSample) : ℚ := listMin (sampleLats raw)

def latMaxOf (raw : List RawSample) : ℚ := listMax (sampleLats raw)

def lonMinOf (raw : List RawSample) : ℚ := listMin (sampleLons raw)

def lonMaxOf (raw : List RawSample) : ℚ := listMax (sampleLons raw)

/-- `lat_bins = np.linspace(lats.min(), lats.max(), resolution)`. -/
def latEdges (raw : List RawSample) (res : ℕ) : List ℚ :=
  linspace (latMinOf raw) (latMaxOf raw) res

/-- `lon_bins = np.linspace(lons.min(), lons.max(), resolution)`. -/
def lonEdges (raw : List RawSample) (res : ℕ) : List ℚ :=
  linspace (lonMinOf raw) (lonMaxOf raw) res

/-! ## The 2-D histogram and the guarded per-cell mean -/

/-- The coerced samples that `np.histogram2d` assigns to cell `(i, j)`. -/
def cellSamples (raw : List RawSample) (res : ℕ) (i j : ℕ) : List Sample :=
  (coerceSamples raw).filter (fun s =>
    decide (binIndex (latEdges raw res) s.lat = some i) &&
    decide (binIndex (lonEdges raw res) s.lon = some j))

/-- `heatmap_grid[i, j]`: the `weights=probs` histogram, the sum of `prob`
over the samples in cell `(i, j)`. -/
def cellWeighted (raw : List RawSample) (res : ℕ) (i j : ℕ) : ℚ :=
  ((cellSamples raw res i j).map Sample.prob).sum

/-- `counts[i, j]`: the unweighted histogram, the number of samples in
cell `(i, j)`. -/
def cellCount (raw : List RawSample) (res : ℕ) (i j : ℕ) : ℕ :=
  (cellSamples raw res i j).length

/-- `avg_probs = np.divide(heatmap_grid, counts, out=np.zeros_like(...),
where=counts != 0)`: the quotient where the count is nonzero, and the
`out` value 0 where it is zero. -/
def avgProb (raw : List RawSample) (res : ℕ) (i j : ℕ) : ℚ :=
  if cellCount raw res i j = 0 then 0
  else cellWeighted raw res i j / (cellCount raw res i j : ℚ)

/-- The dense `(res-1) × (res-1)` mean-probability grid. -/
def avgGrid (raw : List RawSample) (res : ℕ) : List (List ℚ) :=
  (List.range (res - 1)).map (fun i =>
    (List.range (res - 1)).map (fun j => avgProb raw res i j))

/-! ## `scipy.ndimage.gaussian_filter` -/

/-- scipy boundary mode `'reflect'` (`(d c b a | a b c d | d c b a)`),
the default of `gaussian_filter`: indices are periodic with period `2n`,
the second half running backwards. -/
def reflectIdx (n : ℕ) (i : ℤ) : ℕ :=
  if n = 0 then 0
  else
    let m := i % (2 * (n : ℤ))
    if m < (n : ℤ) then m.toNat else (2 * (n : ℤ) - 1 - m).toNat

/-- Entry `(i, j)` of a grid stored as a list of rows (0 out of range). -/
def getEntry (g : List (List ℚ)) (i j : ℕ) : ℚ := (g.getD i []).getD j 0

/-- `scipy.ndimage.correlate1d` with a symmetric kernel of odd length
`2r + 1` and boundary mode `'reflect'`.  `gaussian_filter(sigma=1.5)`
uses the normalized Gaussian kernel `exp(-x²/(2·1.5²))`, `x = -r..r`,
`r = int(4·1.5 + 0.5) = 6`, whose exact weights are irrational; the
embedding therefore takes the 1-D kernel weights as a parameter (the
claims that depend on them assume only that they are nonnegative and sum
to 1, which the Gaussian kernel satisfies by construction). -/
def convolve1d (kernel v : List ℚ) : List ℚ :=
  let r : ℤ := (kernel.length : ℤ) / 2
  (List.range v.length).map (fun i =>
    ∑ t ∈ Finset.range kernel.length,
      kernel.getD t 0 * v.getD (reflectIdx v.length ((i : ℤ) + (t : ℤ) - r)) 0)

/-- The pass of `gaussian_filter` along axis 1: each row convolved. -/
def convRows (kernel : List ℚ) (g : List (List ℚ)) : List (List ℚ) :=
  g.map (convolve1d kernel)

/-- The pass of `gaussian_filter` along axis 0: each column convolved. -/
def convCols (kernel : List ℚ) (g : List (List ℚ)) : List (List ℚ) :=
  let r : ℤ := (kernel.length : ℤ) / 2
  (List.range g.length).map (fun i =>
    (List.range ((g.getD i []).length)).map (fun j =>
      ∑ t ∈ Finset.range kernel.length,
        kernel.getD t 0 * getEntry g (reflectIdx g.length ((i : ℤ) + (t : ℤ) - r)) j))

/-- `gaussian_filter(grid, sigma)`: the separable filter, one 1-D pass
per axis (the passes commute, so the order is immaterial). -/
def gaussianFilter2d (kernel : List ℚ) (g : List (List ℚ)) : List (List ℚ) :=
  convCols kernel (convRows kernel g)

/-- `smoothed_probs = gaussian_filter(avg_probs, sigma=1.5)`. -/
def smoothedGrid (raw : List RawSample) (res : ℕ) (kernel : List ℚ) : List (List ℚ) :=
  gaussianFilter2d kernel (avgGrid raw res)

/-- `smoothed_probs[i, j]`. -/
def smoothedProb (raw : List RawSample) (res : ℕ) (kernel : List ℚ) (i j : ℕ) : ℚ :=
  getEntry (smoothedGrid raw res kernel) i j

/-- `lat_centers[i] = (lat_bins[i] + lat_bins[i+1]) / 2`. -/
def latCenter (raw : List RawSample) (res : ℕ) (i : ℕ) : ℚ :=
  ((latEdges raw res).getD i 0 + (latEdges raw res).getD (i + 1) 0) / 2

/-- `lon_centers[j] = (lon_bins[j] + lon_bins[j+1]) / 2`. -/
def lonCenter (raw : List RawSample) (res : ℕ) (j : ℕ) : ℚ :=
  ((lonEdges raw res).getD j 0 + (lonEdges raw res).getD (j + 1) 0) / 2

/-- One emitted row of the output dataframe of `apply_smoothing`. -/
structure SmoothedPoint where
  lat : ℚ
  lon : ℚ
  prob : ℚ
deriving DecidableEq

/-- `apply_smoothing(df, resolution)` (lines 194-230 of `src/main.py`).
When the coerced input is empty, `lats.min()` is a reduction of a
zero-size array and numpy raises `ValueError`; the raised exception is
modelled as `none`.  Otherwise the emission loop over
`i, j in range(resolution - 1)` keeps `smoothed_probs[i, j] > 0` cells,
emitting the cell center and its smoothed value. -/
def apply_smoothing (raw : List RawSample) (res : ℕ) (kernel : List ℚ) :
    Option (List SmoothedPoint) :=
  if coerceSamples raw = [] then none
  else
    some ((List.range (res - 1)).flatMap (fun i =>
      (List.range (res - 1)).filterMap (fun j =>
        if 0 < smoothedProb raw res kernel i j then
          some ⟨latCenter raw res i, lonCenter raw res j, smoothedProb raw res kernel i j⟩
        else none)))

/-! ## The spatial filter (`filter_points_in_polygon`, lines 71-81)

The polygon comes in as drawn GeoJSON and is turned into a shapely
polygon by `shape(geojson_polygon["geometry"])`; the relevant shapely
semantics are embedded below:

* a linear ring is closed automatically: when the first coordinate does
  not equal the last, shapely appends the first coordinate silently;
* after closing, a ring of fewer than 4 coordinates (i.e. fewer than 3
  distinct drawn vertices) makes the constructor raise (shapely:
  "A linearring requires at least 4 coordinates"), while an empty
  coordinate sequence builds an empty polygon that contains nothing;
* `polygon.contains(point)` is true iff the point lies in the interior
  of the polygon: a boundary point is not contained.
-/

/-- Shapely's automatic ring closure: append the first vertex when the
ring does not already end with it. -/
def closeRing (ring : List (ℚ × ℚ)) : List (ℚ × ℚ) :=
  match ring with
  | [] => []
  | p :: rest => if (p :: rest).getLast? = some p then p :: rest else (p :: rest) ++ [p]

/-- `shape(...)` on a GeoJSON polygon: `.error` models the exception the
shapely `LinearRing` constructor raises on 1 or 2 coordinates; an empty
ring gives the empty polygon `.ok []`. -/
def mkPolygon (ring : List (ℚ × ℚ)) : Except String (List (ℚ × ℚ)) :=
  match ring with
  | [] => Except.ok []
  | p :: rest =>
    if (closeRing (p :: rest)).length < 4 then
      Except.error "A linearring requires at least 4 coordinates"
    else Except.ok (closeRing (p :: rest))

/-- Consecutive vertex pairs of a closed ring. -/
def ringEdges (ring : List (ℚ × ℚ)) : List ((ℚ × ℚ) × (ℚ × ℚ)) :=
  ring.zip (ring.drop 1)

/-- Whether `p` lies on the closed segment `a`-`b` (collinear and inside
the bounding box). -/
def onSegment (a b p : ℚ × ℚ) : Bool :=
  decide ((b.1 - a.1) * (p.2 - a.2) - (b.2 - a.2) * (p.1 - a.1) = 0) &&
  decide (min a.1 b.1 ≤ p.1) && decide (p.1 ≤ max a.1 b.1) &&
  decide (min a.2 b.2 ≤ p.2) && decide (p.2 ≤ max a.2 b.2)

/-- Whether the horizontal ray from `p` to `x = +∞` crosses the edge
`a`-`b` (the standard even-odd crossing rule with half-open vertical
extents). -/
def crossesRay (p : ℚ × ℚ) (e : (ℚ × ℚ) × (ℚ × ℚ)) : Bool :=
  let a := e.1
  let b := e.2
  (decide (a.2 ≤ p.2 ∧ p.2 < b.2) || decide (b.2 ≤ p.2 ∧ p.2 < a.2)) &&
  decide (p.1 < a.1 + (p.2 - a.2) * (b.1 - a.1) / (b.2 - a.2))

/-- GEOS `polygon.contains(point)` for a simple polygon given as a closed
ring: the point is strictly interior — not on the boundary, and with an
odd even-odd crossing number. -/
def polyContains (closedRing : List (ℚ × ℚ)) (p : ℚ × ℚ) : Bool :=
  (ringEdges closedRing).all (fun e => !onSegment e.1 e.2 p) &&
  decide ((ringEdges closedRing).countP (crossesRay p) % 2 = 1)

/-- One row of the historical loss dataframe: `lon`/`lat` coordinates,
the remaining numeric columns in `attrs`, and the value of the `point`
column when that column exists. -/
structure GeoRow where
  lon : ℚ
  lat : ℚ
  attrs : List ℚ
  point : Option (ℚ × ℚ)
deriving DecidableEq

/-- A dataframe of geocoded rows: the names of the extra columns, a flag
for whether the `point` column has been added, and the rows. -/
structure GeoFrame where
  attrCols : List String
  hasPointCol : Bool
  rows : List GeoRow
deriving DecidableEq

/-- The dataframe's column list (`lat`, `lon` first, as `loadHistoricalData`
produces them, then the extra columns, then `point` when present). -/
def GeoFrame.columns (df : GeoFrame) : List String :=
  ["lat", "lon"] ++ df.attrCols ++ (if df.hasPointCol then ["point"] else [])

/-- Line 76, `df["point"] = df.apply(lambda row: Point(row["lon"],
row["lat"]), axis=1)`: an in-place mutation of the argument dataframe,
adding (or overwriting) the `point` column. -/
def addPointColumn (df : GeoFrame) : GeoFrame :=
  { df with
    hasPointCol := true
    rows := df.rows.map (fun r => { r with point := some (r.lon, r.lat) }) }

/-- The row predicate of line 79, `df["point"].apply(polygon.contains)`. -/
def rowInside (poly : List (ℚ × ℚ)) (r : GeoRow) : Bool :=
  match r.point with
  | some p => polyContains poly p
  | none => false

/-- `filter_points_in_polygon(df, geojson_polygon)` (lines 71-81).  The
result pairs the state of the caller's dataframe after the call (the
`point` column has been added in place) with the returned filtered copy;
`.error` models the exception `shape` raises before the mutation. -/
def filter_points_in_polygon (df : GeoFrame) (ring : List (ℚ × ℚ)) :
    Except String (GeoFrame × GeoFrame) :=
  match mkPolygon ring with
  | Except.error e => Except.error e
  | Except.ok poly =>
    let df1 := addPointColumn df
    Except.ok (df1, { df1 with rows := df1.rows.filter (rowInside poly) })

/-! ## The temporal aggregation of `plot_loss_trend` (lines 49-56) -/

/-- Insert a key into a strictly increasing list of keys, keeping it
strictly increasing (the set of group keys pandas maintains). -/
def insertKey (x : ℤ) : List ℤ → List ℤ
  | [] => [x]
  | y :: ys => if x = y then y :: ys else if x < y then x :: y :: ys else y :: insertKey x ys

/-- The sorted distinct group keys of `groupby("label")` (pandas sorts
group keys ascending by default). -/
def distinctKeys (l : List ℤ) : List ℤ :=
  l.foldl (fun acc x => insertKey x acc) []

/-- Stable insertion into a list sorted ascending by the first component
(`sort_values("year")`). -/
def insertByYear (x : ℤ × ℤ) : List (ℤ × ℤ) → List (ℤ × ℤ)
  | [] => [x]
  | y :: ys => if x.1 ≤ y.1 then x :: y :: ys else y :: insertByYear x ys

/-- `sort_values("year")` on `(year, loss_pixels)` records. -/
def sortByYear (l : List (ℤ × ℤ)) : List (ℤ × ℤ) := l.foldr insertByYear []

/-- The sum of the `count` column over the rows sharing `label = l`. -/
def sumCounts (rows : List (ℤ × ℤ)) (l : ℤ) : ℤ :=
  ((rows.filter (fun r => decide (r.1 = l))).map Prod.snd).sum

/-- Lines 49-56 of `plot_loss_trend`: `filtered_df.groupby("label")
["count"].sum()` (one row per distinct label, keys sorted ascending, the
counts summed), then `year = lossyear + 2000`, then `sort_values("year")`.
Input rows are `(label, count)` pairs of the filtered dataframe; output
rows are `(year, loss_pixels)` pairs. -/
def aggregateByYear (rows : List (ℤ × ℤ)) : List (ℤ × ℤ) :=
  let trend := (distinctKeys (rows.map Prod.fst)).map (fun l => (l, sumCounts rows l))
  sortByYear (trend.map (fun r => (r.1 + 2000, r.2)))

/-! ## Risk-level filtering of the Classifier tab (lines 437-456) -/

/-- `LOW, MED, HIGH = 0.04, 0.19, 0.29`. -/
def LOW : ℚ := 4/100

def MED : ℚ := 19/100

def HIGH : ℚ := 29/100

/-- The value of the `st.radio` selector. -/
inductive RiskLevel
  | all
  | low
  | medium
  | high
deriving DecidableEq

/-- The row test of the `if risk_level == ...` chain of lines 449-456:
High keeps `prob >= HIGH`, Medium keeps `MED <= prob < HIGH`, Low keeps
`LOW <= prob < MED`, and the `else` branch (All) keeps `prob >= LOW`. -/
def riskSelected (level : RiskLevel) (p : ℚ) : Bool :=
  match level with
  | RiskLevel.high => decide (p ≥ HIGH)
  | RiskLevel.medium => decide (p ≥ MED) && decide (p < HIGH)
  | RiskLevel.low => decide (p ≥ LOW) && decide (p < MED)
  | RiskLevel.all => decide (p ≥ LOW)

/-- `filtered_df = classifier_df[...]` for the selected risk level, on
the `prob` column. -/
def filterByRisk (level : RiskLevel) (probs : List ℚ) : List ℚ :=
  probs.filter (riskSelected level)

/-! ## Concrete inputs and auxiliary value-level definitions -/

/-- One raw sample; its bounding box is a single point (degenerate). -/
def rawSingle : List RawSample := [⟨some 2, some 3, some (1/2)⟩]

/-- Two raw samples with distinct latitudes and longitudes. -/
def rawPair : List RawSample :=
  [⟨some 0, some 0, some (1/2)⟩, ⟨some 1, some 1, some (1/2)⟩]

/-- Entrywise bounds on a grid stored as a list of rows. -/
def gridBounded (M : ℚ) (g : List (List ℚ)) : Prop :=
  ∀ row ∈ g, ∀ x ∈ row, 0 ≤ x ∧ x ≤ M

/-- The closed square ring `(0,0),(0,10),(10,10),(10,0),(0,0)` in
`(lon, lat)` coordinates. -/
def sqRing : List (ℚ × ℚ) := [(0, 0), (0, 10), (10, 10), (10, 0), (0, 0)]

/-- The same square drawn WITHOUT closing the ring. -/
def ringOpen : List (ℚ × ℚ) := [(0, 0), (0, 10), (10, 10), (10, 0)]

/-- An empty dataframe with no extra columns. -/
def dfEmpty : GeoFrame := { attrCols := [], hasPointCol := false, rows := [] }

/-- A one-row historical frame (lon 5, lat 5, label 1, count 10). -/
def dfSample : GeoFrame :=
  { attrCols := ["label", "count"], hasPointCol := false,
    rows := [⟨5, 5, [1, 10], none⟩] }

/-- The three test samples of the spec, as `(lon, lat)` rows. -/
def sqFrame : GeoFrame :=
  { attrCols := [], hasPointCol := false,
    rows := [⟨5, 5, [], none⟩, ⟨15, 15, [], none⟩, ⟨-1, 5, [], none⟩] }

/-- Removing the `point` column (to compare the pre-existing data). -/
def stripPointCol (df : GeoFrame) : GeoFrame :=
  { df with hasPointCol := false, rows := df.rows.map (fun r => { r with point := none }) }

/-! ## Lemmas about `linspace` and `binIndex` -/

lemma linspace_length (lo hi : ℚ) (n : ℕ) : (linspace lo hi n).length = n := by
  simp [linspace]

lemma linspace_getD {lo hi : ℚ} {n i : ℕ} (h : i < n) :
    (linspace lo hi n).getD i 0 = lo + (i : ℚ) * ((hi - lo) / ((n : ℚ) - 1)) := by
  have hl : i < (linspace lo hi n).length := by simpa [linspace_length] using h
  rw [List.getD_eq_getElem _ _ hl]
  simp [linspace]

lemma linspace_getLast {lo hi : ℚ} {n : ℕ} (h : 2 ≤ n) :
    (linspace lo hi n).getLast? = some hi := by
  obtain ⟨m, rfl⟩ : ∃ m, n = m + 1 := ⟨n - 1, by omega⟩
  have hm : (m : ℚ) ≠ 0 := by
    have h1 : 1 ≤ m := by omega
    exact_mod_cast Nat.one_le_iff_ne_zero.mp h1
  rw [linspace, List.range_succ, List.map_append]
  rw [List.map_cons, List.map_nil, List.getLast?_concat]
  congr 1
  push_cast
  field_simp

lemma linspace_le_hi {lo hi : ℚ} (hle : lo ≤ hi) {n i : ℕ} (h : i < n) :
    lo + (i : ℚ) * ((hi - lo) / ((n : ℚ) - 1)) ≤ hi := by
  match n, h with
  | 1, _ =>
    have : i = 0 := by omega
    subst this
    simpa using hle
  | (m + 2), _ =>
    have hn : (0 : ℚ) < (m : ℚ) + 1 := by positivity
    have hi' : (i : ℚ) ≤ (m : ℚ) + 1 := by
      have : i ≤ m + 1 := by omega
      exact_mod_cast this
    have hstep : 0 ≤ (hi - lo) / (((m : ℚ) + 2) - 1) := by
      apply div_nonneg (by linarith)
      linarith
    have hmul : (i : ℚ) * ((hi - lo) / (((m : ℚ) + 2) - 1)) ≤
        ((m : ℚ) + 1) * ((hi - lo) / (((m : ℚ) + 2) - 1)) :=
      mul_le_mul_of_nonneg_right hi' hstep
    have hlast : ((m : ℚ) + 1) * ((hi - lo) / (((m : ℚ) + 2) - 1)) = hi - lo := by
      have : ((m : ℚ) + 2) - 1 = (m : ℚ) + 1 := by ring
      rw [this]
      field_simp
    push_cast at hmul ⊢
    linarith [hmul, hlast.ge, hlast.le]

lemma searchsortedRight_linspace (lo hi x : ℚ) (n : ℕ) :
    searchsortedRight (linspace lo hi n) x =
      (List.range n).countP (fun (i : ℕ) => decide (lo + (i : ℚ) * ((hi - lo) / ((n : ℚ) - 1)) ≤ x)) := by
  rw [searchsortedRight, linspace, List.countP_map]
  rfl

lemma searchsortedRight_hi {lo hi : ℚ} (hle : lo ≤ hi) (n : ℕ) :
    searchsortedRight (linspace lo hi n) hi = n := by
  rw [searchsortedRight_linspace]
  have := List.countP_eq_length
    (l := List.range n)
    (p := fun (i : ℕ) => decide (lo + (i : ℚ) * ((hi - lo) / ((n : ℚ) - 1)) ≤ hi))
  rw [this.mpr, List.length_range]
  intro i hi'
  rw [List.mem_range] at hi'
  simpa using linspace_le_hi hle hi'

lemma countP_comp_succ_eq_zero {p : ℕ → Bool} (m : ℕ) (h : ∀ i, 1 ≤ i → ¬p i = true) :
    List.countP (p ∘ Nat.succ) (List.range m) = 0 := by
  rw [List.countP_eq_zero]
  intro i _
  exact h (i + 1) (by omega)

lemma searchsortedRight_lo {lo hi : ℚ} (hlt : lo < hi) {n : ℕ} (h2 : 2 ≤ n) :
    searchsortedRight (linspace lo hi n) lo = 1 := by
  obtain ⟨m, rfl⟩ : ∃ m, n = m + 1 := ⟨n - 1, by omega⟩
  rw [searchsortedRight_linspace, List.range_succ_eq_map, List.countP_cons, List.countP_map,
    countP_comp_succ_eq_zero]
  · simp
  · intro i hi1
    simp only [decide_eq_true_eq]
    push_cast
    intro hcon
    have hm : (0 : ℚ) < (m : ℚ) := by
      have h1 : 1 ≤ m := by omega
      exact_mod_cast h1
    have hstep : 0 < (hi - lo) / ((m : ℚ) + 1 - 1) := by
      have he : (m : ℚ) + 1 - 1 = (m : ℚ) := by ring
      rw [he]
      exact div_pos (by linarith) hm
    have hip : (1 : ℚ) ≤ (i : ℚ) := by exact_mod_cast hi1
    nlinarith [hstep, hcon, hip, mul_le_mul_of_nonneg_right hip hstep.le]

lemma searchsortedRight_lt_of_lt {lo hi x : ℚ} (h0 : lo ≤ x) (hx : x < hi) {n : ℕ}
    (h2 : 2 ≤ n) :
    1 ≤ searchsortedRight (linspace lo hi n) x ∧
      searchsortedRight (linspace lo hi n) x ≤ n - 1 := by
  rw [searchsortedRight_linspace]
  constructor
  · have hpos : 0 < (List.range n).countP
        (fun (i : ℕ) => decide (lo + (i : ℚ) * ((hi - lo) / ((n : ℚ) - 1)) ≤ x)) := by
      rw [List.countP_pos_iff]
      refine ⟨0, List.mem_range.mpr (by omega), ?_⟩
      simpa using h0
    omega
  · by_contra hcon
    push_neg at hcon
    have hle : List.countP (fun (i : ℕ) => decide (lo + (i : ℚ) * ((hi - lo) / ((n : ℚ) - 1)) ≤ x))
        (List.range n) ≤ n := by
      simpa using List.countP_le_length
        (fun (i : ℕ) => decide (lo + (i : ℚ) * ((hi - lo) / ((n : ℚ) - 1)) ≤ x)) (l := List.range n)
    have heq : List.countP (fun (i : ℕ) => decide (lo + (i : ℚ) * ((hi - lo) / ((n : ℚ) - 1)) ≤ x))
        (List.range n) = n := by omega
    have hall := (List.countP_eq_length (l := List.range n)).mp (by
      simpa [List.length_range] using heq)
    have hlastmem : (n - 1) ∈ List.range n := List.mem_range.mpr (by omega)
    have := hall _ hlastmem
    rw [decide_eq_true_eq] at this
    have hml : (((n : ℕ) - 1 : ℕ) : ℚ) = (n : ℚ) - 1 := by
      have h1 : 1 ≤ n := by omega
      push_cast [h1]
      ring
    rw [hml] at this
    have hne : (n : ℚ) - 1 ≠ 0 := by
      have h1 : (2 : ℚ) ≤ (n : ℚ) := by exact_mod_cast h2
      intro h0'
      nlinarith
    have hlast : lo + ((n : ℚ) - 1) * ((hi - lo) / ((n : ℚ) - 1)) = hi := by
      field_simp
    rw [hlast] at this
    linarith

lemma binIndex_max {lo hi : ℚ} {n : ℕ} (h2 : 2 ≤ n) (hle : lo ≤ hi) :
    binIndex (linspace lo hi n) hi = some (n - 2) := by
  have h1 : 1 ≤ n - 1 := by omega
  simp [binIndex, searchsortedRight_hi hle, linspace_getLast h2, linspace_length, h1,
    Nat.sub_sub]

lemma binIndex_min {lo hi : ℚ} {n : ℕ} (h2 : 2 ≤ n) (hlt : lo < hi) :
    binIndex (linspace lo hi n) lo = some 0 := by
  have hne : hi ≠ lo := ne_of_gt hlt
  have h1 : 1 ≤ n - 1 := by omega
  simp [binIndex, searchsortedRight_lo hlt h2, linspace_getLast h2, linspace_length, hne, h1]

lemma binIndex_mem {lo hi x : ℚ} {n : ℕ} (h2 : 2 ≤ n) (h1 : lo ≤ x) (hx : x ≤ hi) :
    ∃ k, binIndex (linspace lo hi n) x = some k ∧ k ≤ n - 2 := by
  rcases eq_or_lt_of_le hx with heq | hlt
  · subst heq
    exact ⟨n - 2, binIndex_max h2 h1, le_refl _⟩
  · obtain ⟨hlow, hhigh⟩ := searchsortedRight_lt_of_lt h1 hlt h2
    refine ⟨searchsortedRight (linspace lo hi n) x - 1, ?_, by omega⟩
    have hne : hi ≠ x := ne_of_gt hlt
    simp [binIndex, linspace_getLast h2, linspace_length, hne, hlow, hhigh]

/-! ## Lemmas about `listMin` / `listMax` -/

lemma foldl_min_le (l : List ℚ) : ∀ a : ℚ, l.foldl min a ≤ a ∧ ∀ x ∈ l, l.foldl min a ≤ x := by
  induction l with
  | nil => simp
  | cons y ys ih =>
    intro a
    have h1 := (ih (min a y)).1
    refine ⟨le_trans h1 (min_le_left a y), ?_⟩
    intro x hx
    rcases List.mem_cons.mp hx with rfl | hmem
    · exact le_trans h1 (min_le_right a x)
    · exact (ih (min a y)).2 x hmem

lemma le_foldl_max (l : List ℚ) : ∀ a : ℚ, a ≤ l.foldl max a ∧ ∀ x ∈ l, x ≤ l.foldl max a := by
  induction l with
  | nil => simp
  | cons y ys ih =>
    intro a
    have h1 := (ih (max a y)).1
    refine ⟨le_trans (le_max_left a y) h1, ?_⟩
    intro x hx
    rcases List.mem_cons.mp hx with rfl | hmem
    · exact le_trans (le_max_right a x) h1
    · exact (ih (max a y)).2 x hmem

lemma listMin_le {l : List ℚ} {x : ℚ} (hx : x ∈ l) : listMin l ≤ x :=
  (foldl_min_le l (l.headD 0)).2 x hx

lemma le_listMax {l : List ℚ} {x : ℚ} (hx : x ∈ l) : x ≤ listMax l :=
  (le_foldl_max l (l.headD 0)).2 x hx

lemma listMin_le_listMax {l : List ℚ} (h : l ≠ []) : listMin l ≤ listMax l := by
  obtain ⟨x, hx⟩ := List.exists_mem_of_ne_nil l h
  exact le_trans (listMin_le hx) (le_listMax hx)

lemma lat_mem_sampleLats {raw : List RawSample} {s : Sample}
    (hs : s ∈ coerceSamples raw) : s.lat ∈ sampleLats raw :=
  List.mem_map.mpr ⟨s, hs, rfl⟩

lemma lon_mem_sampleLons {raw : List RawSample} {s : Sample}
    (hs : s ∈ coerceSamples raw) : s.lon ∈ sampleLons raw :=
  List.mem_map.mpr ⟨s, hs, rfl⟩

/-! ## Claim C1 -/

/-- C1 (amended): for every input sample sequence that is empty after
numeric coercion, `apply_smoothing` does NOT return an empty output: it
raises — `lats.min()` is a reduction of a zero-size numpy array, which
raises `ValueError`, modelled by `none`.  (The original claim, that an
empty coerced input yields an empty output collection rather than an
error, is refuted by `claim_C1_cex`.) -/
theorem claim_C1 (raw : List RawSample) (res : ℕ) (kernel : List ℚ)
    (h : coerceSamples raw = []) : apply_smoothing raw res kernel = none := by
  rw [apply_smoothing, if_pos h]

/-- Witness for C1 at the concrete empty input, resolution 300. -/
theorem claim_C1_witness : apply_smoothing [] 300 [1] = none :=
  claim_C1 [] 300 [1] (by simp [coerceSamples])

/-- Counterexample to C1 as stated: the empty input coerces to the empty
sample list, yet `apply_smoothing` signals the numpy fault (`none`)
instead of returning the empty output `some []` the claim requires. -/
theorem claim_C1_cex :
    coerceSamples [] = [] ∧
      apply_smoothing [] 300 [1] = none ∧ apply_smoothing [] 300 [1] ≠ some [] := by
  refine ⟨rfl, ?_, ?_⟩ <;> simp [apply_smoothing, coerceSamples]

/-! ## Claim C4 -/

/-- C4 (amended): in the binning step of `apply_smoothing`, each axis is
partitioned into `resolution - 1` equal-width bins spanning `[min, max]`,
every coerced sample falls into exactly one grid cell (the bin-assignment
function is single-valued, so existence of an in-range bin index is
exactly-one membership), and a sample equal to the axis maximum lands in
the last bin.  The axis minimum lands in the first bin PROVIDED the axis
has two distinct coordinate values; in the degenerate one-value case
numpy assigns every sample (including the minimum) to the last bin, which
refutes the unconditional original claim (`claim_C4_cex`). -/
theorem claim_C4 (raw : List RawSample) (res : ℕ) (h2 : 2 ≤ res)
    (hne : coerceSamples raw ≠ []) :
    (∀ i, i + 1 < res →
        (latEdges raw res).getD (i + 1) 0 - (latEdges raw res).getD i 0 =
            (latMaxOf raw - latMinOf raw) / ((res : ℚ) - 1) ∧
        (lonEdges raw res).getD (i + 1) 0 - (lonEdges raw res).getD i 0 =
            (lonMaxOf raw - lonMinOf raw) / ((res : ℚ) - 1)) ∧
    (latEdges raw res).getD 0 0 = latMinOf raw ∧
    (lonEdges raw res).getD 0 0 = lonMinOf raw ∧
    (latEdges raw res).getD (res - 1) 0 = latMaxOf raw ∧
    (lonEdges raw res).getD (res - 1) 0 = lonMaxOf raw ∧
    (∀ s ∈ coerceSamples raw, ∃ ki kj,
        binIndex (latEdges raw res) s.lat = some ki ∧ ki ≤ res - 2 ∧
        binIndex (lonEdges raw res) s.lon = some kj ∧ kj ≤ res - 2) ∧
    binIndex (latEdges raw res) (latMaxOf raw) = some (res - 2) ∧
    binIndex (lonEdges raw res) (lonMaxOf raw) = some (res - 2) ∧
    (latMinOf raw < latMaxOf raw → binIndex (latEdges raw res) (latMinOf raw) = some 0) ∧
    (lonMinOf raw < lonMaxOf raw → binIndex (lonEdges raw res) (lonMinOf raw) = some 0) := by
  have hlats : sampleLats raw ≠ [] := by
    rw [sampleLats]
    simpa using hne
  have hlons : sampleLons raw ≠ [] := by
    rw [sampleLons]
    simpa using hne
  have hlatle : latMinOf raw ≤ latMaxOf raw := listMin_le_listMax hlats
  have hlonle : lonMinOf raw ≤ lonMaxOf raw := listMin_le_listMax hlons
  refine ⟨?_, ?_, ?_, ?_, ?_, ?_, ?_, ?_, ?_, ?_⟩
  · intro i hi
    rw [latEdges, lonEdges, linspace_getD (by omega), linspace_getD (by omega),
      linspace_getD (by omega), linspace_getD (by omega)]
    constructor <;> (push_cast; ring)
  · rw [latEdges, linspace_getD (by omega)]
    simp
  · rw [lonEdges, linspace_getD (by omega)]
    simp
  · rw [latEdges, linspace_getD (by omega)]
    have h1 : 1 ≤ res := by omega
    have hml : (((res : ℕ) - 1 : ℕ) : ℚ) = (res : ℚ) - 1 := by push_cast [h1]; ring
    rw [hml]
    have hcase : (res : ℚ) - 1 ≠ 0 := by
      have : (2 : ℚ) ≤ (res : ℚ) := by exact_mod_cast h2
      intro h0
      nlinarith
    field_simp
  · rw [lonEdges, linspace_getD (by omega)]
    have h1 : 1 ≤ res := by omega
    have hml : (((res : ℕ) - 1 : ℕ) : ℚ) = (res : ℚ) - 1 := by push_cast [h1]; ring
    rw [hml]
    have hcase : (res : ℚ) - 1 ≠ 0 := by
      have : (2 : ℚ) ≤ (res : ℚ) := by exact_mod_cast h2
      intro h0
      nlinarith
    field_simp
  · intro s hs
    obtain ⟨ki, hki, hkile⟩ := @binIndex_mem (latMinOf raw) (latMaxOf raw) s.lat res
      h2 (listMin_le (lat_mem_sampleLats hs)) (le_listMax (lat_mem_sampleLats hs))
    obtain ⟨kj, hkj, hkjle⟩ := @binIndex_mem (lonMinOf raw) (lonMaxOf raw) s.lon res
      h2 (listMin_le (lon_mem_sampleLons hs)) (le_listMax (lon_mem_sampleLons hs))
    exact ⟨ki, kj, hki, hkile, hkj, hkjle⟩
  · exact binIndex_max h2 hlatle
  · exact binIndex_max h2 hlonle
  · intro hlt
    exact binIndex_min h2 hlt
  · intro hlt
    exact binIndex_min h2 hlt

/-! ## Concrete inputs used by witnesses and counterexamples -/

lemma coerce_rawSingle : coerceSamples rawSingle = [⟨2, 3, 1/2⟩] := rfl

lemma coerce_rawPair : coerceSamples rawPair = [⟨0, 0, 1/2⟩, ⟨1, 1, 1/2⟩] := rfl

lemma latMinOf_rawPair : latMinOf rawPair = 0 := by
  rw [latMinOf, sampleLats, coerce_rawPair]
  norm_num [listMin]

lemma latMaxOf_rawPair : latMaxOf rawPair = 1 := by
  rw [latMaxOf, sampleLats, coerce_rawPair]
  norm_num [listMax]

lemma lonMinOf_rawPair : lonMinOf rawPair = 0 := by
  rw [lonMinOf, sampleLons, coerce_rawPair]
  norm_num [listMin]

lemma lonMaxOf_rawPair : lonMaxOf rawPair = 1 := by
  rw [lonMaxOf, sampleLons, coerce_rawPair]
  norm_num [listMax]

/-- Witness for C4 at the two-point input, resolution 3: the axis maxima
land in the last bin (index 1) and the axis minima in the first. -/
theorem claim_C4_witness :
    binIndex (latEdges rawPair 3) (latMaxOf rawPair) = some 1 ∧
      binIndex (latEdges rawPair 3) (latMinOf rawPair) = some 0 := by
  have h := claim_C4 rawPair 3 (by omega) (by rw [coerce_rawPair]; simp)
  exact ⟨h.2.2.2.2.2.2.1, h.2.2.2.2.2.2.2.2.1
    (by rw [latMinOf_rawPair, latMaxOf_rawPair]; norm_num)⟩

/-- Counterexample to C4 as stated: for the nonempty single-sample input
(one coerced sample, whose latitude is both the axis minimum and the axis
maximum), numpy's binning puts the sample holding the axis minimum into
the LAST bin (index `300 - 2 = 298`), not into the first bin as the claim
requires. -/
theorem claim_C4_cex :
    coerceSamples rawSingle ≠ [] ∧
      (⟨2, 3, 1/2⟩ : Sample) ∈ coerceSamples rawSingle ∧
      latMinOf rawSingle = 2 ∧
      binIndex (latEdges rawSingle 300) (latMinOf rawSingle) = some 298 ∧
      binIndex (latEdges rawSingle 300) (latMinOf rawSingle) ≠ some 0 := by
  have hmin : latMinOf rawSingle = 2 := by
    rw [latMinOf, sampleLats, coerce_rawSingle]
    norm_num [listMin]
  have hmax : latMaxOf rawSingle = 2 := by
    rw [latMaxOf, sampleLats, coerce_rawSingle]
    norm_num [listMax]
  have hedges : latEdges rawSingle 300 = linspace 2 2 300 := by
    rw [latEdges, hmin, hmax]
  have hbin : binIndex (latEdges rawSingle 300) (latMinOf rawSingle) = some 298 := by
    rw [hedges, hmin]
    simpa using @binIndex_max 2 2 300 (by omega) le_rfl
  refine ⟨by rw [coerce_rawSingle]; simp, by rw [coerce_rawSingle]; simp, hmin, hbin, ?_⟩
  rw [hbin]
  simp

/-! ## Claim C9 -/

/-- C9: in the grid smoothing engine, each cell's derived mean
probability equals `weightedSum / count` when the count is positive and
equals 0 when the count is zero; the guarded `np.divide` (with
`out=zeros, where=counts != 0`) makes the mean a total function — no cell
produces a division fault or an undefined value. -/
theorem claim_C9 (raw : List RawSample) (res : ℕ) (i j : ℕ) :
    (0 < cellCount raw res i j →
      avgProb raw res i j = cellWeighted raw res i j / (cellCount raw res i j : ℚ)) ∧
    (cellCount raw res i j = 0 → avgProb raw res i j = 0) := by
  constructor
  · intro h
    rw [avgProb, if_neg (by omega)]
  · intro h
    rw [avgProb, if_pos h]

/-! ## Claim C5 -/

lemma length_filterMap_if {β : Type} (l : List ℕ) (p : ℕ → Prop) [DecidablePred p]
    (g : ℕ → β) :
    (l.filterMap (fun j => if p j then some (g j) else none)).length =
      (l.filter (fun j => decide (p j))).length := by
  induction l with
  | nil => rfl
  | cons a l ih =>
    by_cases h : p a
    · simp [List.filterMap_cons, List.filter_cons, h, ih]
    · simp [List.filterMap_cons, List.filter_cons, h, ih]

/-- The emitted rows of `apply_smoothing` are exactly the centers of the
cells with strictly positive smoothed value. -/
lemma mem_smoothing_out {raw : List RawSample} {res : ℕ} {kernel : List ℚ}
    {pt : SmoothedPoint} :
    (pt ∈ (List.range (res - 1)).flatMap (fun i =>
      (List.range (res - 1)).filterMap (fun j =>
        if 0 < smoothedProb raw res kernel i j then
          some (⟨latCenter raw res i, lonCenter raw res j,
            smoothedProb raw res kernel i j⟩ : SmoothedPoint)
        else none))) ↔
      ∃ i j, i < res - 1 ∧ j < res - 1 ∧ 0 < smoothedProb raw res kernel i j ∧
        pt = ⟨latCenter raw res i, lonCenter raw res j, smoothedProb raw res kernel i j⟩ := by
  rw [List.mem_flatMap]
  constructor
  · rintro ⟨i, hi, hmem⟩
    rw [List.mem_filterMap] at hmem
    obtain ⟨j, hj, heq⟩ := hmem
    by_cases h : 0 < smoothedProb raw res kernel i j
    · rw [if_pos h] at heq
      exact ⟨i, j, List.mem_range.mp hi, List.mem_range.mp hj, h,
        (Option.some_inj.mp heq).symm⟩
    · rw [if_neg h] at heq
      cases heq
  · rintro ⟨i, j, hi, hj, h, rfl⟩
    exact ⟨i, List.mem_range.mpr hi,
      List.mem_filterMap.mpr ⟨j, List.mem_range.mpr hj, by rw [if_pos h]⟩⟩

/-- C5: for every nonempty coerced input and resolution, `apply_smoothing`
emits exactly one output point per grid cell whose smoothed value is
strictly positive (the output length is the sum, over the rows, of the
number of positive cells), located at the cell's geometric center; every
emitted probability is strictly positive and the number of output points
is at most `(resolution - 1)²`. -/
theorem claim_C5 (raw : List RawSample) (res : ℕ) (kernel : List ℚ)
    (hne : coerceSamples raw ≠ []) :
    ∃ out, apply_smoothing raw res kernel = some out ∧
      out.length = ((List.range (res - 1)).map (fun i =>
        ((List.range (res - 1)).filter
          (fun j => decide (0 < smoothedProb raw res kernel i j))).length)).sum ∧
      out.length ≤ (res - 1) ^ 2 ∧
      (∀ pt ∈ out, 0 < pt.prob) ∧
      (∀ i j, i < res - 1 → j < res - 1 → 0 < smoothedProb raw res kernel i j →
        (⟨latCenter raw res i, lonCenter raw res j, smoothedProb raw res kernel i j⟩ :
          SmoothedPoint) ∈ out) ∧
      (∀ pt ∈ out, ∃ i j, i < res - 1 ∧ j < res - 1 ∧
        0 < smoothedProb raw res kernel i j ∧
        pt = ⟨latCenter raw res i, lonCenter raw res j,
          smoothedProb raw res kernel i j⟩) := by
  refine ⟨(List.range (res - 1)).flatMap (fun i =>
      (List.range (res - 1)).filterMap (fun j =>
        if 0 < smoothedProb raw res kernel i j then
          some ⟨latCenter raw res i, lonCenter raw res j, smoothedProb raw res kernel i j⟩
        else none)), ?_, ?_, ?_, ?_, ?_, ?_⟩
  · rw [apply_smoothing, if_neg hne]
  · rw [List.length_flatMap]
    congr 1
    apply List.map_congr_left
    intro i _
    simp only [Function.comp_apply]
    exact length_filterMap_if (List.range (res - 1))
      (fun j => 0 < smoothedProb raw res kernel i j)
      (fun j => (⟨latCenter raw res i, lonCenter raw res j,
        smoothedProb raw res kernel i j⟩ : SmoothedPoint))
  · rw [List.length_flatMap]
    have hb : ∀ x ∈ (List.range (res - 1)).map
        (List.length ∘ fun i => (List.range (res - 1)).filterMap (fun j =>
          if 0 < smoothedProb raw res kernel i j then
            some (⟨latCenter raw res i, lonCenter raw res j,
              smoothedProb raw res kernel i j⟩ : SmoothedPoint)
          else none)), x ≤ res - 1 := by
      intro x hx
      obtain ⟨i, _, rfl⟩ := List.mem_map.mp hx
      calc (List.length ∘ fun i => (List.range (res - 1)).filterMap _) i
          ≤ (List.range (res - 1)).length := List.length_filterMap_le _ _
        _ = res - 1 := List.length_range _
    calc ((List.range (res - 1)).map _).sum
        ≤ ((List.range (res - 1)).map _).length • (res - 1) :=
          List.sum_le_card_nsmul _ _ hb
      _ = (res - 1) * (res - 1) := by
          simp [List.length_map, List.length_range, smul_eq_mul]
      _ = (res - 1) ^ 2 := by ring
  · intro pt hpt
    obtain ⟨i, j, _, _, hpos, rfl⟩ := mem_smoothing_out.mp hpt
    exact hpos
  · intro i j hi hj hpos
    exact mem_smoothing_out.mpr ⟨i, j, hi, hj, hpos, rfl⟩
  · intro pt hpt
    exact mem_smoothing_out.mp hpt

/-- Witness for C5 at the concrete two-sample input, resolution 3,
identity kernel. -/
theorem claim_C5_witness :
    ∃ out, apply_smoothing rawPair 3 [1] = some out ∧
      out.length = ((List.range (3 - 1)).map (fun i =>
        ((List.range (3 - 1)).filter
          (fun j => decide (0 < smoothedProb rawPair 3 [1] i j))).length)).sum ∧
      out.length ≤ (3 - 1) ^ 2 ∧
      (∀ pt ∈ out, 0 < pt.prob) ∧
      (∀ i j, i < 3 - 1 → j < 3 - 1 → 0 < smoothedProb rawPair 3 [1] i j →
        (⟨latCenter rawPair 3 i, lonCenter rawPair 3 j, smoothedProb rawPair 3 [1] i j⟩ :
          SmoothedPoint) ∈ out) ∧
      (∀ pt ∈ out, ∃ i j, i < 3 - 1 ∧ j < 3 - 1 ∧
        0 < smoothedProb rawPair 3 [1] i j ∧
        pt = ⟨latCenter rawPair 3 i, lonCenter rawPair 3 j,
          smoothedProb rawPair 3 [1] i j⟩) :=
  claim_C5 rawPair 3 [1] (by rw [coerce_rawPair]; simp)

/-! ## Convexity of the smoothing pass (for claim C10) -/

lemma sum_kernel_getD (kernel : List ℚ) :
    ∑ t ∈ Finset.range kernel.length, kernel.getD t 0 = kernel.sum := by
  induction kernel with
  | nil => simp
  | cons a l ih =>
    rw [List.length_cons, Finset.sum_range_succ']
    simp only [List.getD_cons_succ, List.getD_cons_zero, List.sum_cons]
    rw [ih]
    ring

lemma getD_bounds {M : ℚ} (hM : 0 ≤ M) {v : List ℚ} (hv : ∀ x ∈ v, 0 ≤ x ∧ x ≤ M) (i : ℕ) :
    0 ≤ v.getD i 0 ∧ v.getD i 0 ≤ M := by
  by_cases h : i < v.length
  · rw [List.getD_eq_getElem _ _ h]
    exact hv _ (List.getElem_mem h)
  · rw [List.getD_eq_default _ _ (by omega)]
    exact ⟨le_refl 0, hM⟩

lemma getEntry_bounds {M : ℚ} (hM : 0 ≤ M) {g : List (List ℚ)} (hg : gridBounded M g)
    (i j : ℕ) : 0 ≤ getEntry g i j ∧ getEntry g i j ≤ M := by
  rw [getEntry]
  by_cases h : i < g.length
  · refine getD_bounds hM ?_ j
    have : g.getD i [] ∈ g := by
      rw [List.getD_eq_getElem _ _ h]
      exact List.getElem_mem h
    exact hg _ this
  · rw [List.getD_eq_default g [] (by omega)]
    simp [hM]

/-- A convex combination of values in `[0, M]` stays in `[0, M]`. -/
lemma conv_entry_bounds {kernel : List ℚ} (hk : ∀ w ∈ kernel, 0 ≤ w)
    (hs : kernel.sum = 1) {M : ℚ} (_hM : 0 ≤ M) (x : ℕ → ℚ)
    (hx : ∀ t, 0 ≤ x t ∧ x t ≤ M) :
    0 ≤ (∑ t ∈ Finset.range kernel.length, kernel.getD t 0 * x t) ∧
      (∑ t ∈ Finset.range kernel.length, kernel.getD t 0 * x t) ≤ M := by
  have hknn : ∀ t ∈ Finset.range kernel.length, 0 ≤ kernel.getD t 0 := by
    intro t ht
    rw [Finset.mem_range] at ht
    rw [List.getD_eq_getElem _ _ ht]
    exact hk _ (List.getElem_mem ht)
  constructor
  · apply Finset.sum_nonneg
    intro t ht
    exact mul_nonneg (hknn t ht) (hx t).1
  · calc (∑ t ∈ Finset.range kernel.length, kernel.getD t 0 * x t)
        ≤ ∑ t ∈ Finset.range kernel.length, kernel.getD t 0 * M :=
          Finset.sum_le_sum (fun t ht => mul_le_mul_of_nonneg_left (hx t).2 (hknn t ht))
      _ = (∑ t ∈ Finset.range kernel.length, kernel.getD t 0) * M := by
          rw [Finset.sum_mul]
      _ = M := by rw [sum_kernel_getD, hs, one_mul]

lemma convolve1d_bounded {kernel : List ℚ} (hk : ∀ w ∈ kernel, 0 ≤ w)
    (hs : kernel.sum = 1) {M : ℚ} (hM : 0 ≤ M) {v : List ℚ}
    (hv : ∀ x ∈ v, 0 ≤ x ∧ x ≤ M) :
    ∀ y ∈ convolve1d kernel v, 0 ≤ y ∧ y ≤ M := by
  intro y hy
  simp only [convolve1d] at hy
  obtain ⟨i, _, rfl⟩ := List.mem_map.mp hy
  exact conv_entry_bounds hk hs hM _ (fun t => getD_bounds hM hv _)

lemma convRows_bounded {kernel : List ℚ} (hk : ∀ w ∈ kernel, 0 ≤ w)
    (hs : kernel.sum = 1) {M : ℚ} (hM : 0 ≤ M) {g : List (List ℚ)}
    (hg : gridBounded M g) : gridBounded M (convRows kernel g) := by
  intro row hrow x hx
  simp only [convRows] at hrow
  obtain ⟨row0, hrow0, rfl⟩ := List.mem_map.mp hrow
  exact convolve1d_bounded hk hs hM (hg _ hrow0) x hx

lemma convCols_bounded {kernel : List ℚ} (hk : ∀ w ∈ kernel, 0 ≤ w)
    (hs : kernel.sum = 1) {M : ℚ} (hM : 0 ≤ M) {g : List (List ℚ)}
    (hg : gridBounded M g) : gridBounded M (convCols kernel g) := by
  intro row hrow x hx
  simp only [convCols] at hrow
  obtain ⟨i, _, rfl⟩ := List.mem_map.mp hrow
  obtain ⟨j, _, rfl⟩ := List.mem_map.mp hx
  exact conv_entry_bounds hk hs hM _ (fun t => getEntry_bounds hM hg _ _)

lemma avgProb_bounds {raw : List RawSample} {res i j : ℕ}
    (hprob : ∀ s ∈ coerceSamples raw, 0 ≤ s.prob ∧ s.prob ≤ 1) :
    0 ≤ avgProb raw res i j ∧ avgProb raw res i j ≤ 1 := by
  rw [avgProb]
  by_cases h : cellCount raw res i j = 0
  · simp [h]
  · rw [if_neg h]
    have hmem : ∀ x ∈ (cellSamples raw res i j).map Sample.prob, 0 ≤ x ∧ x ≤ 1 := by
      intro x hx
      obtain ⟨s, hs, rfl⟩ := List.mem_map.mp hx
      exact hprob s (List.mem_of_mem_filter hs)
    have hsumnn : 0 ≤ cellWeighted raw res i j :=
      List.sum_nonneg (fun x hx => (hmem x hx).1)
    have hsumle : cellWeighted raw res i j ≤ (cellCount raw res i j : ℚ) := by
      rw [cellWeighted, cellCount]
      calc ((cellSamples raw res i j).map Sample.prob).sum
          ≤ ((cellSamples raw res i j).map Sample.prob).length • (1 : ℚ) :=
            List.sum_le_card_nsmul _ _ (fun x hx => (hmem x hx).2)
        _ = ((cellSamples raw res i j).length : ℚ) := by
            simp [List.length_map, nsmul_eq_mul]
    have hcpos : (0 : ℚ) < (cellCount raw res i j : ℚ) := by
      rw [Nat.cast_pos]
      omega
    exact ⟨div_nonneg hsumnn hcpos.le, (div_le_one hcpos).mpr hsumle⟩

lemma avgGrid_bounded {raw : List RawSample} {res : ℕ} {M : ℚ}
    (h : ∀ i j, i < res - 1 → j < res - 1 →
      0 ≤ avgProb raw res i j ∧ avgProb raw res i j ≤ M) :
    gridBounded M (avgGrid raw res) := by
  intro row hrow x hx
  simp only [avgGrid] at hrow
  obtain ⟨i, hi, rfl⟩ := List.mem_map.mp hrow
  obtain ⟨j, hj, rfl⟩ := List.mem_map.mp hx
  exact h i j (List.mem_range.mp hi) (List.mem_range.mp hj)

lemma smoothedProb_bounds {raw : List RawSample} {res : ℕ} {kernel : List ℚ}
    (hk : ∀ w ∈ kernel, 0 ≤ w) (hs : kernel.sum = 1) {M : ℚ} (hM : 0 ≤ M)
    (havg : ∀ i j, i < res - 1 → j < res - 1 →
      0 ≤ avgProb raw res i j ∧ avgProb raw res i j ≤ M) (i j : ℕ) :
    0 ≤ smoothedProb raw res kernel i j ∧ smoothedProb raw res kernel i j ≤ M := by
  rw [smoothedProb, smoothedGrid, gaussianFilter2d]
  exact getEntry_bounds hM
    (convCols_bounded hk hs hM (convRows_bounded hk hs hM (avgGrid_bounded havg))) i j

/-! ## Claim C10 -/

/-- C10: the smoothing kernel is normalized — each smoothed value is a
convex combination of per-cell means — so every emitted probability is at
most every upper bound `M ≥ 0` of the per-cell means of the unsmoothed
grid (in particular, at most their maximum); and when all input
probabilities lie in `[0, 1]`, every emitted probability lies in
`(0, 1]`. -/
theorem claim_C10 (raw : List RawSample) (res : ℕ) (kernel : List ℚ)
    (hne : coerceSamples raw ≠ [])
    (hk : ∀ w ∈ kernel, 0 ≤ w) (hs : kernel.sum = 1)
    (hprob : ∀ s ∈ coerceSamples raw, 0 ≤ s.prob ∧ s.prob ≤ 1) :
    ∃ out, apply_smoothing raw res kernel = some out ∧
      ∀ pt ∈ out, (0 < pt.prob ∧ pt.prob ≤ 1) ∧
        ∀ M, 0 ≤ M → (∀ i j, i < res - 1 → j < res - 1 → avgProb raw res i j ≤ M) →
          pt.prob ≤ M := by
  refine ⟨(List.range (res - 1)).flatMap (fun i =>
      (List.range (res - 1)).filterMap (fun j =>
        if 0 < smoothedProb raw res kernel i j then
          some ⟨latCenter raw res i, lonCenter raw res j, smoothedProb raw res kernel i j⟩
        else none)), ?_, ?_⟩
  · rw [apply_smoothing, if_neg hne]
  · intro pt hpt
    obtain ⟨i, j, hi, hj, hpos, rfl⟩ := mem_smoothing_out.mp hpt
    have h1 : 0 ≤ smoothedProb raw res kernel i j ∧ smoothedProb raw res kernel i j ≤ 1 :=
      smoothedProb_bounds hk hs (by norm_num)
        (fun i j _ _ => avgProb_bounds hprob) i j
    refine ⟨⟨hpos, h1.2⟩, ?_⟩
    intro M hM hMb
    exact (smoothedProb_bounds hk hs hM
      (fun i j hi hj => ⟨(avgProb_bounds hprob).1, hMb i j hi hj⟩) i j).2

/-- Witness for C10 at the two-sample input, resolution 3, the trivial
normalized kernel. -/
theorem claim_C10_witness :
    ∃ out, apply_smoothing rawPair 3 [1] = some out ∧
      ∀ pt ∈ out, (0 < pt.prob ∧ pt.prob ≤ 1) ∧
        ∀ M, 0 ≤ M → (∀ i j, i < 3 - 1 → j < 3 - 1 → avgProb rawPair 3 i j ≤ M) →
          pt.prob ≤ M :=
  claim_C10 rawPair 3 [1] (by rw [coerce_rawPair]; simp)
    (by intro w hw; rcases List.mem_singleton.mp hw with rfl; norm_num)
    (by simp)
    (by rw [coerce_rawPair]
        intro s hs
        rcases List.mem_cons.mp hs with rfl | hs2
        · norm_num
        · rcases List.mem_singleton.mp hs2 with rfl
          norm_num)

/-! ## Polygon data used by claims C2, C3, C7 -/

lemma mkPolygon_sqRing : mkPolygon sqRing = Except.ok sqRing := by
  have hcl : closeRing sqRing = sqRing := by
    rw [sqRing, closeRing]
    simp
  rw [sqRing] at hcl ⊢
  rw [mkPolygon, hcl]
  simp

lemma contains_55 : polyContains sqRing (5, 5) = true := by
  norm_num [polyContains, ringEdges, sqRing, onSegment, crossesRay, min_def, max_def,
    List.countP_cons]

lemma contains_1515 : polyContains sqRing (15, 15) = false := by
  norm_num [polyContains, ringEdges, sqRing, onSegment, crossesRay, min_def, max_def,
    List.countP_cons]

lemma contains_m15 : polyContains sqRing (-1, 5) = false := by
  norm_num [polyContains, ringEdges, sqRing, onSegment, crossesRay, min_def, max_def,
    List.countP_cons]

/-! ## Claim C2 -/

/-- C2 (amended): a drawn ring of one or two vertices makes the shapely
linear-ring constructor raise (surfaced as an exception, though not a
dedicated `InvalidPolygon` condition), but a ring of at least three
vertices that does NOT close is not rejected: shapely closes it silently
and the filter proceeds with the closed polygon.  (The original claim —
every degenerate polygon, including a non-closing ring, signals
`InvalidPolygon` — is refuted by `claim_C2_cex`.) -/
theorem claim_C2 :
    (∀ (df : GeoFrame) (p : ℚ × ℚ) (rest : List (ℚ × ℚ)),
        (p :: rest).length ≤ 2 →
        filter_points_in_polygon df (p :: rest) =
          Except.error "A linearring requires at least 4 coordinates") ∧
    (∀ (df : GeoFrame) (p : ℚ × ℚ) (rest : List (ℚ × ℚ)),
        3 ≤ (p :: rest).length → (p :: rest).getLast? ≠ some p →
        filter_points_in_polygon df (p :: rest) =
          Except.ok (addPointColumn df,
            { addPointColumn df with
                rows := (addPointColumn df).rows.filter
                  (rowInside ((p :: rest) ++ [p])) })) := by
  constructor
  · intro df p rest hlen
    have hmk : mkPolygon (p :: rest) =
        Except.error "A linearring requires at least 4 coordinates" := by
      have h4 : (closeRing (p :: rest)).length < 4 := by
        rw [closeRing]
        by_cases hc : (p :: rest).getLast? = some p
        · rw [if_pos hc]
          simp only [List.length_cons] at hlen ⊢
          omega
        · rw [if_neg hc]
          simp only [List.length_append, List.length_cons, List.length_nil] at hlen ⊢
          omega
      simp only [mkPolygon, if_pos h4]
    rw [filter_points_in_polygon, hmk]
  · intro df p rest hlen hne
    have hcl : closeRing (p :: rest) = (p :: rest) ++ [p] := by
      rw [closeRing, if_neg hne]
    have hmk : mkPolygon (p :: rest) = Except.ok ((p :: rest) ++ [p]) := by
      simp only [mkPolygon, hcl]
      rw [if_neg (by
        simp only [List.length_append, List.length_cons, List.length_nil] at hlen ⊢
        omega)]
    rw [filter_points_in_polygon, hmk]

/-- Counterexample to C2 as stated: the square ring drawn without closing
(4 vertices, first ≠ last) is degenerate in the claim's sense, yet the
filter returns a normal `Except.ok` result instead of signalling an
`InvalidPolygon` condition. -/
theorem claim_C2_cex :
    ringOpen.length = 4 ∧
      ringOpen.getLast? ≠ some ((0 : ℚ), (0 : ℚ)) ∧
      ringOpen.headD (0, 0) = ((0 : ℚ), (0 : ℚ)) ∧
      ∃ df1 out, filter_points_in_polygon dfEmpty ringOpen = Except.ok (df1, out) := by
  have hne : ringOpen.getLast? ≠ some ((0 : ℚ), (0 : ℚ)) := by
    rw [show ringOpen.getLast? = some ((10 : ℚ), (0 : ℚ)) from rfl]
    simp only [ne_eq, Option.some.injEq, Prod.mk.injEq, not_and]
    intro h
    norm_num at h
  have hcl : closeRing ringOpen = ringOpen ++ [((0 : ℚ), (0 : ℚ))] := by
    rw [ringOpen, closeRing]
    rw [if_neg (by exact hne)]
  have hmk : mkPolygon ringOpen = Except.ok (ringOpen ++ [((0 : ℚ), (0 : ℚ))]) := by
    rw [ringOpen] at hcl ⊢
    simp only [mkPolygon, hcl]
    simp
  exact ⟨rfl, hne, rfl, addPointColumn dfEmpty,
    { addPointColumn dfEmpty with
        rows := (addPointColumn dfEmpty).rows.filter
          (rowInside (ringOpen ++ [((0 : ℚ), (0 : ℚ))])) },
    by rw [filter_points_in_polygon, hmk]⟩

/-! ## Claim C3 -/

/-- C3 (amended): the spatial filter does NOT treat its input dataframe
as read-only: line 76 adds a `point` column to the caller's frame in
place.  The mutation is, however, exactly that column: the pre-existing
columns, the row count and every pre-existing value are unchanged
(stripping the `point` column recovers the original frame), and the
returned collection is a freshly built filtered copy.  (The original
claim — the input is unchanged, same columns — is refuted by
`claim_C3_cex`.) -/
theorem claim_C3 (df : GeoFrame) (ring poly : List (ℚ × ℚ))
    (hok : mkPolygon ring = Except.ok poly) :
    ∃ df1 out, filter_points_in_polygon df ring = Except.ok (df1, out) ∧
      df1 = addPointColumn df ∧
      stripPointCol df1 = stripPointCol df ∧
      df1.hasPointCol = true ∧
      df1.attrCols = df.attrCols ∧
      df1.rows.length = df.rows.length ∧
      out = { df1 with rows := df1.rows.filter (rowInside poly) } := by
  refine ⟨addPointColumn df,
    { addPointColumn df with rows := (addPointColumn df).rows.filter (rowInside poly) },
    ?_, rfl, ?_, rfl, rfl, ?_, rfl⟩
  · rw [filter_points_in_polygon, hok]
  · simp only [stripPointCol, addPointColumn, List.map_map]
    rfl
  · simp [addPointColumn]

/-- Witness for C3 at the one-row frame and the closed square. -/
theorem claim_C3_witness :
    ∃ df1 out, filter_points_in_polygon dfSample sqRing = Except.ok (df1, out) ∧
      df1 = addPointColumn dfSample ∧
      stripPointCol df1 = stripPointCol dfSample ∧
      df1.hasPointCol = true ∧
      df1.attrCols = dfSample.attrCols ∧
      df1.rows.length = dfSample.rows.length ∧
      out = { df1 with rows := df1.rows.filter (rowInside sqRing) } :=
  claim_C3 dfSample sqRing sqRing mkPolygon_sqRing

/-- Counterexample to C3 as stated: after the filter returns, the
caller's frame has gained a `point` column — its column list is no longer
the one it had before the call. -/
theorem claim_C3_cex :
    dfSample.columns = ["lat", "lon", "label", "count"] ∧
      ∃ df1 out, filter_points_in_polygon dfSample sqRing = Except.ok (df1, out) ∧
        df1.columns = ["lat", "lon", "label", "count", "point"] ∧
        df1.columns ≠ dfSample.columns := by
  refine ⟨by simp [GeoFrame.columns, dfSample], addPointColumn dfSample,
    { addPointColumn dfSample with
        rows := (addPointColumn dfSample).rows.filter (rowInside sqRing) },
    by rw [filter_points_in_polygon, mkPolygon_sqRing], ?_, ?_⟩
  · simp [GeoFrame.columns, addPointColumn, dfSample]
  · simp [GeoFrame.columns, addPointColumn, dfSample]

/-! ## Claim C7 -/

/-- C7: the spatial filter returns exactly the subsequence of input rows
whose `(lon, lat)` point lies inside the polygon (lon is x, lat is y),
and on the square `(0,0),(0,10),(10,10),(10,0)` with samples `(5,5)`,
`(15,15)`, `(-1,5)` it returns only `(5,5)`. -/
theorem claim_C7 :
    (∀ (df : GeoFrame) (ring poly : List (ℚ × ℚ)), mkPolygon ring = Except.ok poly →
      ∃ df1 out, filter_points_in_polygon df ring = Except.ok (df1, out) ∧
        out.rows.map (fun r => (r.lon, r.lat, r.attrs)) =
          (df.rows.filter (fun r => polyContains poly (r.lon, r.lat))).map
            (fun r => (r.lon, r.lat, r.attrs))) ∧
    polyContains sqRing (5, 5) = true ∧
    polyContains sqRing (15, 15) = false ∧
    polyContains sqRing (-1, 5) = false ∧
    (∃ df1 out, filter_points_in_polygon sqFrame sqRing = Except.ok (df1, out) ∧
      out.rows.map (fun r => (r.lon, r.lat)) = [((5 : ℚ), (5 : ℚ))]) := by
  refine ⟨?_, contains_55, contains_1515, contains_m15, ?_⟩
  · intro df ring poly hok
    refine ⟨addPointColumn df,
      { addPointColumn df with rows := (addPointColumn df).rows.filter (rowInside poly) },
      by rw [filter_points_in_polygon, hok], ?_⟩
    simp only [addPointColumn, List.filter_map, List.map_map]
    rfl
  · refine ⟨addPointColumn sqFrame,
      { addPointColumn sqFrame with
          rows := (addPointColumn sqFrame).rows.filter (rowInside sqRing) },
      by rw [filter_points_in_polygon, mkPolygon_sqRing], ?_⟩
    simp [addPointColumn, sqFrame, rowInside, contains_55, contains_1515, contains_m15]

/-! ## Lemmas for the temporal aggregation (claim C6) -/

lemma mem_insertKey {x a : ℤ} : ∀ {l : List ℤ}, a ∈ insertKey x l ↔ a = x ∨ a ∈ l := by
  intro l
  induction l with
  | nil => simp [insertKey]
  | cons y ys ih =>
    rw [insertKey]
    by_cases h1 : x = y
    · subst h1
      rw [if_pos rfl]
      simp only [List.mem_cons]
      tauto
    · rw [if_neg h1]
      by_cases h2 : x < y
      · rw [if_pos h2]
        simp only [List.mem_cons]
      · rw [if_neg h2]
        simp only [List.mem_cons, ih]
        tauto

lemma sorted_insertKey {x : ℤ} : ∀ {l : List ℤ},
    l.Sorted (· < ·) → (insertKey x l).Sorted (· < ·) := by
  intro l
  induction l with
  | nil => intro _; simp [insertKey]
  | cons y ys ih =>
    intro hs
    rw [List.sorted_cons] at hs
    obtain ⟨hy, hys⟩ := hs
    rw [insertKey]
    by_cases h1 : x = y
    · subst h1
      rw [if_pos rfl, List.sorted_cons]
      exact ⟨hy, hys⟩
    · rw [if_neg h1]
      by_cases h2 : x < y
      · rw [if_pos h2, List.sorted_cons]
        refine ⟨?_, List.sorted_cons.mpr ⟨hy, hys⟩⟩
        intro b hb
        rcases List.mem_cons.mp hb with rfl | hb2
        · exact h2
        · exact lt_trans h2 (hy b hb2)
      · rw [if_neg h2, List.sorted_cons]
        refine ⟨?_, ih hys⟩
        intro b hb
        rcases mem_insertKey.mp hb with rfl | hb2
        · omega
        · exact hy b hb2

lemma distinctKeys_spec (l : List ℤ) :
    (distinctKeys l).Sorted (· < ·) ∧ ∀ a, a ∈ distinctKeys l ↔ a ∈ l := by
  rw [distinctKeys]
  suffices h : ∀ acc : List ℤ, acc.Sorted (· < ·) →
      (l.foldl (fun acc x => insertKey x acc) acc).Sorted (· < ·) ∧
      ∀ a, a ∈ l.foldl (fun acc x => insertKey x acc) acc ↔ a ∈ acc ∨ a ∈ l by
    obtain ⟨h1, h2⟩ := h [] (by simp)
    refine ⟨h1, fun a => ?_⟩
    rw [h2 a]
    simp
  induction l with
  | nil =>
    intro acc hacc
    refine ⟨hacc, fun a => ?_⟩
    simp
  | cons x xs ih =>
    intro acc hacc
    simp only [List.foldl_cons]
    obtain ⟨h1, h2⟩ := ih (insertKey x acc) (sorted_insertKey hacc)
    refine ⟨h1, fun a => ?_⟩
    rw [h2 a, mem_insertKey]
    simp only [List.mem_cons]
    tauto

lemma insertByYear_perm (x : ℤ × ℤ) :
    ∀ l : List (ℤ × ℤ), (insertByYear x l).Perm (x :: l) := by
  intro l
  induction l with
  | nil => exact List.Perm.refl _
  | cons y ys ih =>
    rw [insertByYear]
    by_cases h : x.1 ≤ y.1
    · rw [if_pos h]
    · rw [if_neg h]
      exact (List.Perm.cons y ih).trans (List.Perm.swap x y ys)

lemma sorted_insertByYear (x : ℤ × ℤ) : ∀ {l : List (ℤ × ℤ)},
    l.Sorted (fun a b => a.1 ≤ b.1) →
    (insertByYear x l).Sorted (fun a b => a.1 ≤ b.1) := by
  intro l
  induction l with
  | nil => intro _; simp [insertByYear]
  | cons y ys ih =>
    intro hs
    rw [List.sorted_cons] at hs
    obtain ⟨hy, hys⟩ := hs
    rw [insertByYear]
    by_cases h : x.1 ≤ y.1
    · rw [if_pos h, List.sorted_cons]
      refine ⟨?_, List.sorted_cons.mpr ⟨hy, hys⟩⟩
      intro b hb
      rcases List.mem_cons.mp hb with rfl | hb2
      · exact h
      · exact le_trans h (hy b hb2)
    · rw [if_neg h, List.sorted_cons]
      refine ⟨?_, ih hys⟩
      intro b hb
      have hb' : b ∈ x :: ys := (insertByYear_perm x ys).mem_iff.mp hb
      rcases List.mem_cons.mp hb' with rfl | hb2
      · omega
      · exact hy b hb2

lemma sortByYear_perm : ∀ l : List (ℤ × ℤ), (sortByYear l).Perm l := by
  intro l
  induction l with
  | nil => exact List.Perm.refl _
  | cons x xs ih =>
    rw [sortByYear, List.foldr_cons]
    exact (insertByYear_perm x _).trans (List.Perm.cons x ih)

lemma sortByYear_sorted : ∀ l : List (ℤ × ℤ),
    (sortByYear l).Sorted (fun a b => a.1 ≤ b.1) := by
  intro l
  induction l with
  | nil => simp [sortByYear]
  | cons x xs ih =>
    rw [sortByYear, List.foldr_cons]
    exact sorted_insertByYear x ih

/-! ## Claim C6 -/

/-- C6: the temporal aggregation produces exactly one record per distinct
`lossYear` (the output length is the number of distinct labels and the
output years are pairwise distinct), with `lossPixelCount` the sum of
`count` over the samples sharing the label and `year = 2000 + lossYear`;
the output is sorted ascending by year; and the spec's concrete example
aggregates as stated. -/
theorem claim_C6 :
    (∀ rows : List (ℤ × ℤ),
      (aggregateByYear rows).Sorted (fun a b => a.1 ≤ b.1) ∧
      ((aggregateByYear rows).map Prod.fst).Nodup ∧
      (aggregateByYear rows).length = (distinctKeys (rows.map Prod.fst)).length ∧
      (∀ y c : ℤ, (y, c) ∈ aggregateByYear rows ↔
        ((y - 2000) ∈ rows.map Prod.fst ∧ c = sumCounts rows (y - 2000)))) ∧
    aggregateByYear [(1, 10), (1, 5), (2, 3)] = [(2001, 15), (2002, 3)] := by
  refine ⟨?_, by decide⟩
  intro rows
  obtain ⟨hsorted, hmem⟩ := distinctKeys_spec (rows.map Prod.fst)
  have hperm : (aggregateByYear rows).Perm
      ((distinctKeys (rows.map Prod.fst)).map (fun l => (l + 2000, sumCounts rows l))) := by
    simp only [aggregateByYear, List.map_map]
    exact sortByYear_perm _
  refine ⟨?_, ?_, ?_, ?_⟩
  · rw [aggregateByYear]
    exact sortByYear_sorted _
  · rw [(hperm.map Prod.fst).nodup_iff, List.map_map]
    have hcomp : (Prod.fst ∘ fun l : ℤ => (l + 2000, sumCounts rows l)) =
        fun l : ℤ => l + 2000 := rfl
    rw [hcomp]
    have hnodup : (distinctKeys (rows.map Prod.fst)).Nodup :=
      hsorted.imp (fun {a b} h => ne_of_lt h)
    exact hnodup.map (fun a b hab => by omega)
  · rw [hperm.length_eq, List.length_map]
  · intro y c
    rw [hperm.mem_iff, List.mem_map]
    constructor
    · rintro ⟨l, hl, heq⟩
      injection heq with h1 h2
      have hl' : l = y - 2000 := by omega
      subst hl'
      exact ⟨(hmem _).mp hl, h2.symm⟩
    · rintro ⟨hmem', rfl⟩
      refine ⟨y - 2000, (hmem _).mpr hmem', ?_⟩
      have : y - 2000 + 2000 = y := by omega
      rw [this]

/-! ## Claim C8 -/

/-- C8: the risk-level filter of the Classifier tab uses the fixed
thresholds `LOW = 0.04`, `MED = 0.19`, `HIGH = 0.29` as half-open
intervals with inclusive lower bounds: Low keeps `[LOW, MED)`, Medium
keeps `[MED, HIGH)`, High keeps `p ≥ HIGH` (so all of `[HIGH, 1]`), a
probability below `LOW` is kept by no selection (named tier or All), All
keeps exactly `p ≥ LOW`; in particular `0.19` is Medium (inclusive lower
bound, not Low) and `0.29` is High (not Medium). -/
theorem claim_C8 :
    (∀ p : ℚ,
      (riskSelected RiskLevel.low p = true ↔ LOW ≤ p ∧ p < MED) ∧
      (riskSelected RiskLevel.medium p = true ↔ MED ≤ p ∧ p < HIGH) ∧
      (riskSelected RiskLevel.high p = true ↔ HIGH ≤ p) ∧
      (riskSelected RiskLevel.all p = true ↔ LOW ≤ p) ∧
      (p < LOW →
        ¬riskSelected RiskLevel.low p = true ∧
        ¬riskSelected RiskLevel.medium p = true ∧
        ¬riskSelected RiskLevel.high p = true ∧
        ¬riskSelected RiskLevel.all p = true)) ∧
    LOW = 4/100 ∧ MED = 19/100 ∧ HIGH = 29/100 ∧
    riskSelected RiskLevel.medium (19/100) = true ∧
    riskSelected RiskLevel.low (19/100) = false ∧
    riskSelected RiskLevel.high (29/100) = true ∧
    riskSelected RiskLevel.medium (29/100) = false ∧
    (∀ (level : RiskLevel) (probs : List ℚ),
      filterByRisk level probs = probs.filter (riskSelected level)) := by
  have hLM : LOW < MED := by norm_num [LOW, MED]
  have hMH : MED < HIGH := by norm_num [MED, HIGH]
  refine ⟨?_, rfl, rfl, rfl,
    by norm_num [riskSelected, MED, HIGH],
    by norm_num [riskSelected, LOW, MED],
    by norm_num [riskSelected, HIGH],
    by norm_num [riskSelected, MED, HIGH],
    fun level probs => rfl⟩
  intro p
  refine ⟨?_, ?_, ?_, ?_, ?_⟩
  · simp [riskSelected]
  · simp [riskSelected]
  · simp [riskSelected]
  · simp [riskSelected]
  · intro hp
    have h1 : p < MED := lt_trans hp hLM
    have h2 : p < HIGH := lt_trans h1 hMH
    simp only [riskSelected, Bool.and_eq_true, decide_eq_true_eq, ge_iff_le]
    refine ⟨?_, ?_, ?_, ?_⟩
    · rintro ⟨hc, -⟩
      linarith
    · rintro ⟨hc, -⟩
      linarith
    · intro hc
      linarith
    · intro hc
      linarith
